import Mathlib

/-!
Verification of the rsdot dotfile manager against its design specification.

The development shallowly embeds the three core modules of the source:
`src/commands/add.rs` (relocate-and-link), `src/commands/status.rs`
(status-reconciliation walk) and `src/commands/sync.rs` (stage/commit/push),
and proves or refutes the specification's claims about them.
-/

/-! ## Raw repository status flags

Embedding of the `git2::Status` bitset: one Boolean per flag bit that the
collaborator can report (`CURRENT` is the all-false valuation). Only the
seven flags matched by `print_status` plus the remaining defined bits are
carried, so that "some other combination of flags" is expressible. -/

structure Status where
  index_new : Bool
  index_modified : Bool
  index_deleted : Bool
  index_renamed : Bool
  index_typechange : Bool
  wt_new : Bool
  wt_modified : Bool
  wt_deleted : Bool
  wt_typechange : Bool
  wt_renamed : Bool
  wt_unreadable : Bool
  ignored : Bool
  conflicted : Bool
deriving DecidableEq

/-- Status value with no flag set (`git2::Status::CURRENT`). -/
def STATUS_CURRENT : Status :=
  ⟨false, false, false, false, false, false, false, false, false, false, false, false, false⟩

/-- Exactly the `INDEX_NEW` bit. -/
def STATUS_INDEX_NEW : Status :=
  ⟨true, false, false, false, false, false, false, false, false, false, false, false, false⟩

/-- Exactly the `INDEX_MODIFIED` bit. -/
def STATUS_INDEX_MODIFIED : Status :=
  ⟨false, true, false, false, false, false, false, false, false, false, false, false, false⟩

/-- Exactly the `INDEX_DELETED` bit. -/
def STATUS_INDEX_DELETED : Status :=
  ⟨false, false, true, false, false, false, false, false, false, false, false, false, false⟩

/-- Exactly the `WT_NEW` bit. -/
def STATUS_WT_NEW : Status :=
  ⟨false, false, false, false, false, true, false, false, false, false, false, false, false⟩

/-- Exactly the `WT_MODIFIED` bit. -/
def STATUS_WT_MODIFIED : Status :=
  ⟨false, false, false, false, false, false, true, false, false, false, false, false, false⟩

/-- Exactly the `WT_DELETED` bit. -/
def STATUS_WT_DELETED : Status :=
  ⟨false, false, false, false, false, false, false, true, false, false, false, false, false⟩

/-- Exactly the `IGNORED` bit. -/
def STATUS_IGNORED : Status :=
  ⟨false, false, false, false, false, false, false, false, false, false, false, true, false⟩

/-- Both `INDEX_MODIFIED` and `WT_MODIFIED` set: the status `git2` reports for a
file whose staged copy differs from HEAD and whose working-tree copy differs
again from the index. -/
def STATUS_BOTH_MODIFIED : Status :=
  ⟨false, true, false, false, false, false, true, false, false, false, false, false, false⟩

/-- The closed set of tags the reporter distinguishes, one per arm of the
`match` in `print_status` (src/commands/status.rs lines 101-149); `absent`
is the `None` arm (no repository attached / failed single-path query). -/
inductive StatusKind where
  | stagedNew
  | stagedModified
  | stagedDeleted
  | unstagedNew
  | unstagedModified
  | unstagedDeleted
  | ignored
  | otherTracked
  | absent
deriving DecidableEq

/-- Embedding of the `match status` expression of `print_status`
(src/commands/status.rs lines 101-149, identically src/main.rs lines 264-312).
A Rust `match` against a bitflags constant pattern such as
`Some(Status::INDEX_NEW)` compares the whole flag set for equality, so each
arm fires only on exactly that single flag; every other `Some` value, in
particular any multi-flag combination, reaches the `Some(_)` arm (`[ok]`). -/
def statusKind : Option Status → StatusKind
  | Option.none => StatusKind.absent
  | Option.some s =>
    if s = STATUS_INDEX_NEW then StatusKind.stagedNew
    else if s = STATUS_INDEX_MODIFIED then StatusKind.stagedModified
    else if s = STATUS_INDEX_DELETED then StatusKind.stagedDeleted
    else if s = STATUS_WT_NEW then StatusKind.unstagedNew
    else if s = STATUS_WT_MODIFIED then StatusKind.unstagedModified
    else if s = STATUS_WT_DELETED then StatusKind.unstagedDeleted
    else if s = STATUS_IGNORED then StatusKind.ignored
    else StatusKind.otherTracked

/-- C2 (counterexample): a file that is both index-modified and
working-tree-modified is tagged `other-tracked` (`[ok]`), not
`staged-modified`, refuting the claimed index-before-working-tree precedence:
the `match` arms test the whole flag set for equality, so no single-flag arm
fires on a multi-flag status. -/
theorem c2_counterexample :
    statusKind (Option.some STATUS_BOTH_MODIFIED) = StatusKind.otherTracked ∧
    statusKind (Option.some STATUS_BOTH_MODIFIED) ≠ StatusKind.stagedModified := by
  decide

/-- Number of flag bits set in a raw status value. Each of the seven
constants matched by `print_status` has exactly one. -/
def flagCount (s : Status) : Nat :=
  s.index_new.toNat + s.index_modified.toNat + s.index_deleted.toNat +
  s.index_renamed.toNat + s.index_typechange.toNat + s.wt_new.toNat +
  s.wt_modified.toNat + s.wt_deleted.toNat + s.wt_typechange.toNat +
  s.wt_renamed.toNat + s.wt_unreadable.toNat + s.ignored.toNat +
  s.conflicted.toNat

/-- C2 (amended): the mapping from raw status flags to `StatusKind` is by
exact equality of the whole flag set, tried in the order index-new,
index-modified, index-deleted, wt-new, wt-modified, wt-deleted, ignored;
each enumerated tag is produced exactly by its single-flag status, and any
status with several flags set simultaneously — at least two bits, of any
kind, so in particular one that is both index-modified and
working-tree-modified — equals none of the single-flag constants and falls
through to `other-tracked`. -/
theorem c2_exact_match_fallthrough :
    (statusKind (Option.some STATUS_INDEX_NEW) = StatusKind.stagedNew ∧
     statusKind (Option.some STATUS_INDEX_MODIFIED) = StatusKind.stagedModified ∧
     statusKind (Option.some STATUS_INDEX_DELETED) = StatusKind.stagedDeleted ∧
     statusKind (Option.some STATUS_WT_NEW) = StatusKind.unstagedNew ∧
     statusKind (Option.some STATUS_WT_MODIFIED) = StatusKind.unstagedModified ∧
     statusKind (Option.some STATUS_WT_DELETED) = StatusKind.unstagedDeleted ∧
     statusKind (Option.some STATUS_IGNORED) = StatusKind.ignored) ∧
    (∀ s : Status, 2 ≤ flagCount s →
      statusKind (Option.some s) = StatusKind.otherTracked) := by
  refine ⟨by decide, ?_⟩
  intro s hs
  have hne : ∀ t : Status, flagCount t = 1 → s ≠ t := by
    intro t h1 he
    rw [he, h1] at hs
    omega
  have h1 : s ≠ STATUS_INDEX_NEW := hne _ (by decide)
  have h2 : s ≠ STATUS_INDEX_MODIFIED := hne _ (by decide)
  have h3 : s ≠ STATUS_INDEX_DELETED := hne _ (by decide)
  have h4 : s ≠ STATUS_WT_NEW := hne _ (by decide)
  have h5 : s ≠ STATUS_WT_MODIFIED := hne _ (by decide)
  have h6 : s ≠ STATUS_WT_DELETED := hne _ (by decide)
  have h7 : s ≠ STATUS_IGNORED := hne _ (by decide)
  simp [statusKind, h1, h2, h3, h4, h5, h6, h7]

/-- C2 (amended, witness): the fall-through clause evaluated at the
concrete both-modified status, which has two flags set. -/
theorem c2_exact_match_fallthrough_witness :
    2 ≤ flagCount STATUS_BOTH_MODIFIED ∧
    statusKind (Option.some STATUS_BOTH_MODIFIED) = StatusKind.otherTracked :=
  ⟨by decide,
    c2_exact_match_fallthrough.2 STATUS_BOTH_MODIFIED (by decide)⟩

/-! ## Relocate-and-link (src/commands/add.rs)

File trees are modelled as nested content values; `move_recursive` is split,
exactly as the recursion in the source is, into the directory walk
(`moveEntries`, the `for entry in src.read_dir()` loop) and the per-node
action (`moveTree`). -/

/-- A file tree: a plain file with its byte content, or a directory with a
list of named entries in enumeration order. -/
inductive Content where
  | file (data : List Nat)
  | dir (entries : List (String × Content))

mutual

/-- Embedding of `move_recursive` (src/commands/add.rs lines 56-97), viewed as
the content it writes at `dst`: a file is copied byte-for-byte (`fs::copy`); a
directory is recreated (`fs::create_dir_all`) and each entry recursed or
copied; the source is removed afterwards (modelled on the state by the
caller). -/
def moveTree : Content → Content
  | Content.file d => Content.file d
  | Content.dir es => Content.dir (moveEntries es)

/-- The `for entry in src.read_dir()` loop of `move_recursive`. -/
def moveEntries : List (String × Content) → List (String × Content)
  | [] => []
  | e :: rest => (e.1, moveTree e.2) :: moveEntries rest

end

/-- Helper: `move_recursive` reproduces the source tree at the destination
byte-for-byte: files are copied verbatim and directory structure is mirrored
entry by entry. -/
theorem move_preserves_content :
    (∀ c, moveTree c = c) ∧ (∀ es, moveEntries es = es) := by
  refine moveTree.mutual_induct (fun c => moveTree c = c)
    (fun es => moveEntries es = es) ?_ ?_ ?_ ?_
  · intro d; rfl
  · intro es h; simp only [moveTree, h]
  · rfl
  · intro e rest h1 h2
    simp only [moveEntries, h1, h2]

/-- Association-list lookup keyed by path string (the filesystem as a finite
map from paths to stored values). -/
def assocGet {α : Type} (k : String) : List (String × α) → Option α
  | [] => Option.none
  | e :: rest => if k = e.1 then Option.some e.2 else assocGet k rest

/-- Association-list update/insert keyed by path string. -/
def setAssoc {α : Type} (k : String) (v : α) : List (String × α) → List (String × α)
  | [] => [(k, v)]
  | e :: rest => if k = e.1 then (k, v) :: rest else e :: setAssoc k v rest

theorem assocGet_setAssoc_self {α : Type} (k : String) (v : α)
    (l : List (String × α)) : assocGet k (setAssoc k v l) = Option.some v := by
  induction l with
  | nil => simp [setAssoc, assocGet]
  | cons e rest ih =>
    by_cases h : k = e.1 <;> simp [setAssoc, assocGet, h, ih]

/-- What a path's original on-disk location holds: still its real content, a
symlink to a target path, or nothing. -/
inductive OrigState where
  | present (c : Content)
  | link (target : String)
  | absent

/-- The filesystem state the add command manipulates: the entries under the
target configuration directory (keyed by destination path) and the original
locations of the input paths (keyed by input path). -/
structure AddState where
  vault : List (String × Content)
  orig : List (String × OrigState)

/-- Embedding of `to.join(f)`: the destination path of input `f` under configuration
directory `to`. -/
def joinPath (d p : String) : String := d ++ "/" ++ p

/-- Embedding of one iteration of the `for f in files` loop of
`move_and_symlink` (src/commands/add.rs lines 100-137): if `dest` already
exists the path is skipped with no error and no state change; otherwise the
input is canonicalized (failing when nothing exists at its original
location), its tree is moved into the vault by `move_recursive` (content
written at `dest`, original removed), and a symlink to `dest` is created at
the canonical original location. The error branch stands in for any I/O
failure while processing this path; it leaves the state as it was. -/
def relocateOne (toDir : String) (st : AddState) (f : String) :
    AddState × Option String :=
  let dest := joinPath toDir f
  if (assocGet dest st.vault).isSome then
    (st, Option.none)
  else
    match assocGet f st.orig with
    | Option.some (OrigState.present c) =>
      (⟨(dest, moveTree c) :: st.vault,
        setAssoc f (OrigState.link dest) st.orig⟩, Option.none)
    | _ => (st, Option.some "Error during file canonicalization")

/-- Embedding of `move_and_symlink` (src/commands/add.rs lines 99-140): the
batch loop over the input paths, in the given order; the first error aborts
the rest of the batch and is propagated (`?`), leaving the filesystem as the
failing iteration left it. -/
def move_and_symlink (toDir : String) (files : List String) (st : AddState) :
    AddState × Option String :=
  match files with
  | [] => (st, Option.none)
  | f :: rest =>
    match relocateOne toDir st f with
    | (st', Option.none) => move_and_symlink toDir rest st'
    | (st', Option.some e) => (st', Option.some e)

/-- C1: when relocation of path `f` actually runs (destination free, original
content present), it succeeds, afterwards the canonical original location of
`f` is a symlink whose target is the corresponding destination path inside
the vault, and the vault now holds at that destination exactly the tree `f`
contained before the call — moved there, the original location no longer
holding it. -/
theorem c1_relocate_links_and_moves (toDir f : String) (st : AddState)
    (c : Content)
    (hdest : assocGet (joinPath toDir f) st.vault = Option.none)
    (horig : assocGet f st.orig = Option.some (OrigState.present c)) :
    (relocateOne toDir st f).2 = Option.none ∧
    assocGet f (relocateOne toDir st f).1.orig =
      Option.some (OrigState.link (joinPath toDir f)) ∧
    assocGet (joinPath toDir f) (relocateOne toDir st f).1.vault =
      Option.some c := by
  have hmv : moveTree c = c := move_preserves_content.1 c
  have hstep : relocateOne toDir st f =
      (⟨(joinPath toDir f, moveTree c) :: st.vault,
        setAssoc f (OrigState.link (joinPath toDir f)) st.orig⟩, Option.none) := by
    simp [relocateOne, hdest, horig]
  rw [hstep]
  refine ⟨rfl, assocGet_setAssoc_self f _ st.orig, ?_⟩
  simp [assocGet, hmv]

/-- C1 (witness): relocating the file `f` with content `[104, 105]` into
configuration `cfg` from the empty vault. -/
def contentHi : Content := Content.file [104, 105]

/-- C1 (witness): initial state for the witness relocations. -/
def stWit : AddState := ⟨[], [("f", OrigState.present contentHi)]⟩

theorem c1_relocate_links_and_moves_witness :
    assocGet (joinPath "cfg" "f") stWit.vault = Option.none ∧
    assocGet "f" stWit.orig = Option.some (OrigState.present contentHi) ∧
    ((relocateOne "cfg" stWit "f").2 = Option.none ∧
     assocGet "f" (relocateOne "cfg" stWit "f").1.orig =
       Option.some (OrigState.link (joinPath "cfg" "f")) ∧
     assocGet (joinPath "cfg" "f") (relocateOne "cfg" stWit "f").1.vault =
       Option.some contentHi) :=
  ⟨rfl, rfl, c1_relocate_links_and_moves "cfg" "f" stWit contentHi rfl rfl⟩

/-- C4: an input path whose destination already exists under the target
configuration directory is skipped: no error is raised and neither the vault
nor the original location changes (the returned state is the input state).
Consequently a second relocation of an already-relocated path is a silent
no-op: after a successful relocation the destination exists, so the repeated
call returns the post-relocation state unchanged, with no error. -/
theorem c4_skip_existing_noop :
    (∀ (toDir f : String) (st : AddState),
      (assocGet (joinPath toDir f) st.vault).isSome = true →
      relocateOne toDir st f = (st, Option.none)) ∧
    (∀ (toDir f : String) (st : AddState) (c : Content),
      assocGet (joinPath toDir f) st.vault = Option.none →
      assocGet f st.orig = Option.some (OrigState.present c) →
      relocateOne toDir (relocateOne toDir st f).1 f =
        ((relocateOne toDir st f).1, Option.none)) := by
  have hskip : ∀ (toDir f : String) (st : AddState),
      (assocGet (joinPath toDir f) st.vault).isSome = true →
      relocateOne toDir st f = (st, Option.none) := by
    intro toDir f st h
    simp [relocateOne, h]
  refine ⟨hskip, ?_⟩
  intro toDir f st c hdest horig
  apply hskip
  have hstep : relocateOne toDir st f =
      (⟨(joinPath toDir f, moveTree c) :: st.vault,
        setAssoc f (OrigState.link (joinPath toDir f)) st.orig⟩, Option.none) := by
    simp [relocateOne, hdest, horig]
  rw [hstep]
  simp [assocGet]

/-- C4 (witness): skipping evaluated on a vault that already holds `cfg/f`,
and re-relocation evaluated on the witness state of C1. -/
def stFull : AddState := ⟨[(joinPath "cfg" "f", contentHi)], []⟩

theorem c4_skip_existing_noop_witness :
    ((assocGet (joinPath "cfg" "f") stFull.vault).isSome = true ∧
     relocateOne "cfg" stFull "f" = (stFull, Option.none)) ∧
    (assocGet (joinPath "cfg" "f") stWit.vault = Option.none ∧
     assocGet "f" stWit.orig = Option.some (OrigState.present contentHi) ∧
     relocateOne "cfg" (relocateOne "cfg" stWit "f").1 "f" =
       ((relocateOne "cfg" stWit "f").1, Option.none)) :=
  ⟨⟨rfl, c4_skip_existing_noop.1 "cfg" "f" stFull rfl⟩,
   ⟨rfl, rfl, c4_skip_existing_noop.2 "cfg" "f" stWit contentHi rfl rfl⟩⟩

/-- C9: an error while processing a path aborts the whole batch: if the
paths of `pre` are processed without error reaching state `st₁`, and the next
path `f` fails there leaving state `stf`, then the batch `pre ++ f :: post`
stops with that error in state `stf` — everything `pre` relocated stays
relocated, and the paths of `post` are never touched. -/
theorem c9_batch_abort (toDir : String) (pre post : List String) (f : String)
    (st st₁ stf : AddState) (e : String)
    (hpre : move_and_symlink toDir pre st = (st₁, Option.none))
    (hf : relocateOne toDir st₁ f = (stf, Option.some e)) :
    move_and_symlink toDir (pre ++ f :: post) st = (stf, Option.some e) := by
  induction pre generalizing st with
  | nil =>
    have h1 : st = st₁ := by
      simpa [move_and_symlink] using hpre
    subst h1
    simp [move_and_symlink, hf]
  | cons g pre ih =>
    simp only [List.cons_append, move_and_symlink] at hpre ⊢
    rcases hr : relocateOne toDir st g with ⟨st', err⟩
    rw [hr] at hpre
    cases err with
    | none => exact ih st' hpre
    | some e' => simp at hpre

/-- C9 (witness): a two-path batch where the first path relocates and the
second fails (nothing at its original location); the third path is never
processed. -/
def stBatch : AddState := ⟨[], [("a", OrigState.present contentHi)]⟩

/-- C9 (witness): the state after the first path of the batch has been
relocated; the failing second path leaves it unchanged. -/
def stBatchFail : AddState :=
  ⟨[(joinPath "cfg" "a", contentHi)],
   [("a", OrigState.link (joinPath "cfg" "a"))]⟩

theorem c9_batch_abort_witness :
    move_and_symlink "cfg" ["a"] stBatch = (stBatchFail, Option.none) ∧
    relocateOne "cfg" stBatchFail "b" =
      (stBatchFail, Option.some "Error during file canonicalization") ∧
    move_and_symlink "cfg" (["a"] ++ "b" :: ["c"]) stBatch =
      (stBatchFail, Option.some "Error during file canonicalization") :=
  ⟨rfl, rfl,
   c9_batch_abort "cfg" ["a"] ["c"] "b" stBatch stBatchFail stBatchFail
     "Error during file canonicalization" rfl rfl⟩

/-! ## Sync (src/commands/sync.rs)

The repository collaborator is modelled by the state the sync path touches:
the full status set (only its emptiness is inspected), the index and working
tree as opaque content identifiers, HEAD's target commit and branch
shorthand, the commit store, the configured remotes, and the refs recorded on
the remote by pushes. `nextId` supplies the object id of a newly written
commit. -/

/-- A commit object: id, parent ids, message and tree id. -/
structure Commit where
  cid : Nat
  parents : List Nat
  message : String
  tree : Nat
deriving DecidableEq

/-- Repository state as seen by `sync::execute`. -/
structure GitRepo where
  statuses : List Status
  index : Nat
  workTree : Nat
  headTarget : Option Nat
  branchName : Option String
  commits : List Commit
  remotes : List String
  remoteRefs : List (String × Nat)
  nextId : Nat
deriving DecidableEq

/-- The observable outcome `sync::execute` reports on success: either the
"No changes to sync" message, or the committed id and whether a push
happened. -/
inductive SyncOutcome where
  | noChanges
  | committed (cid : Nat) (pushed : Bool)
deriving DecidableEq

/-- Embedding of `sync::execute` (src/commands/sync.rs lines 5-78), returning
the repository state after the call together with its result. In order, as in
the source: bail when no repository; return the no-changes outcome when the
status set is empty; stage everything (`add_all` + `index.write`, modelled by
the index becoming the working tree) and write it as a tree; resolve HEAD's
target (unborn branch: error — both the `head()` failure and a target-less
HEAD collapse to the `headTarget = none` case); find the parent commit; write
the commit with message "Sync dotfiles" and single parent HEAD, advancing
HEAD to it; then, only if `push` was requested, resolve remote `origin`
(error when absent, the commit remaining in place), resolve the branch
shorthand, and push the branch ref to the same-named ref on the remote. -/
def sync_execute (repo : Option GitRepo) (push : Bool) :
    Option GitRepo × Except String SyncOutcome :=
  match repo with
  | Option.none => (Option.none, Except.error "GIT repo not found")
  | Option.some r =>
    if r.statuses.isEmpty then
      (Option.some r, Except.ok SyncOutcome.noChanges)
    else
      match r.headTarget with
      | Option.none =>
        (Option.some ⟨r.statuses, r.workTree, r.workTree, r.headTarget,
           r.branchName, r.commits, r.remotes, r.remoteRefs, r.nextId⟩,
         Except.error "No HEAD commit found")
      | Option.some h =>
        if (r.commits.map Commit.cid).contains h then
          if push then
            if r.remotes.contains "origin" then
              match r.branchName with
              | Option.none =>
                (Option.some ⟨r.statuses, r.workTree, r.workTree,
                   Option.some r.nextId, r.branchName,
                   Commit.mk r.nextId [h] "Sync dotfiles" r.workTree :: r.commits,
                   r.remotes, r.remoteRefs, r.nextId + 1⟩,
                 Except.error "Cannot determine current branch")
              | Option.some b =>
                (Option.some ⟨r.statuses, r.workTree, r.workTree,
                   Option.some r.nextId, r.branchName,
                   Commit.mk r.nextId [h] "Sync dotfiles" r.workTree :: r.commits,
                   r.remotes, (b, r.nextId) :: r.remoteRefs, r.nextId + 1⟩,
                 Except.ok (SyncOutcome.committed r.nextId true))
            else
              (Option.some ⟨r.statuses, r.workTree, r.workTree,
                 Option.some r.nextId, r.branchName,
                 Commit.mk r.nextId [h] "Sync dotfiles" r.workTree :: r.commits,
                 r.remotes, r.remoteRefs, r.nextId + 1⟩,
               Except.error "Remote origin not found")
          else
            (Option.some ⟨r.statuses, r.workTree, r.workTree,
               Option.some r.nextId, r.branchName,
               Commit.mk r.nextId [h] "Sync dotfiles" r.workTree :: r.commits,
               r.remotes, r.remoteRefs, r.nextId + 1⟩,
             Except.ok (SyncOutcome.committed r.nextId false))
        else
          (Option.some ⟨r.statuses, r.workTree, r.workTree, r.headTarget,
             r.branchName, r.commits, r.remotes, r.remoteRefs, r.nextId⟩,
           Except.error "Failed to find parent commit")

/-- C5: on a repository whose full status set is empty, sync returns the
no-changes outcome without error and the repository state — HEAD, index,
commits and all refs — is returned exactly as it was. -/
theorem c5_no_changes_frame (r : GitRepo) (push : Bool)
    (h : r.statuses = []) :
    sync_execute (Option.some r) push =
      (Option.some r, Except.ok SyncOutcome.noChanges) := by
  simp [sync_execute, h]

/-- C5 (witness): a clean repository. -/
def repoClean : GitRepo :=
  ⟨[], 0, 0, Option.some 5, Option.some "main",
   [Commit.mk 5 [] "init" 0], ["origin"], [], 6⟩

theorem c5_no_changes_frame_witness :
    repoClean.statuses = [] ∧
    sync_execute (Option.some repoClean) true =
      (Option.some repoClean, Except.ok SyncOutcome.noChanges) :=
  ⟨rfl, c5_no_changes_frame repoClean true rfl⟩

/-- C3: on a repository with a non-empty status set and a born HEAD, sync
creates exactly one new commit — the commit store grows by exactly the one
commit whose single parent is the commit HEAD pointed to before the call and
whose message is exactly "Sync dotfiles" — and HEAD now points to it; on a
repository with a non-empty status set whose HEAD has no existing commit
(unborn branch), sync fails with an error and creates no commit. -/
theorem c3_commit_parent_message :
    (∀ (r : GitRepo) (push : Bool) (h : Nat),
      r.statuses ≠ [] → r.headTarget = Option.some h →
      (r.commits.map Commit.cid).contains h = true →
      ∃ r₂ : GitRepo,
        (sync_execute (Option.some r) push).1 = Option.some r₂ ∧
        r₂.commits = Commit.mk r.nextId [h] "Sync dotfiles" r.workTree :: r.commits ∧
        r₂.headTarget = Option.some r.nextId) ∧
    (∀ (r : GitRepo) (push : Bool),
      r.statuses ≠ [] → r.headTarget = Option.none →
      ∃ (e : String) (r₂ : GitRepo),
        (sync_execute (Option.some r) push).2 = Except.error e ∧
        (sync_execute (Option.some r) push).1 = Option.some r₂ ∧
        r₂.commits = r.commits ∧ r₂.headTarget = Option.none) := by
  constructor
  · intro r push h hne hh hmem
    have hie : r.statuses.isEmpty = false := by
      cases hs : r.statuses with
      | nil => exact absurd hs hne
      | cons a l => rfl
    have hmem2 : ∃ a ∈ r.commits, a.cid = h := by simpa using hmem
    cases push with
    | false =>
      refine ⟨⟨r.statuses, r.workTree, r.workTree, Option.some r.nextId,
        r.branchName,
        Commit.mk r.nextId [h] "Sync dotfiles" r.workTree :: r.commits,
        r.remotes, r.remoteRefs, r.nextId + 1⟩, ?_, rfl, rfl⟩
      simp [sync_execute, hie, hh, hmem2]
    | true =>
      by_cases ho : "origin" ∈ r.remotes
      · cases hb : r.branchName with
        | none =>
          refine ⟨⟨r.statuses, r.workTree, r.workTree, Option.some r.nextId,
            r.branchName,
            Commit.mk r.nextId [h] "Sync dotfiles" r.workTree :: r.commits,
            r.remotes, r.remoteRefs, r.nextId + 1⟩, ?_, rfl, rfl⟩
          simp [sync_execute, hie, hh, hmem2, ho, hb]
        | some b =>
          refine ⟨⟨r.statuses, r.workTree, r.workTree, Option.some r.nextId,
            r.branchName,
            Commit.mk r.nextId [h] "Sync dotfiles" r.workTree :: r.commits,
            r.remotes, (b, r.nextId) :: r.remoteRefs, r.nextId + 1⟩,
            ?_, rfl, rfl⟩
          simp [sync_execute, hie, hh, hmem2, ho, hb]
      · refine ⟨⟨r.statuses, r.workTree, r.workTree, Option.some r.nextId,
          r.branchName,
          Commit.mk r.nextId [h] "Sync dotfiles" r.workTree :: r.commits,
          r.remotes, r.remoteRefs, r.nextId + 1⟩, ?_, rfl, rfl⟩
        simp [sync_execute, hie, hh, hmem2, ho]
  · intro r push hne hh
    have hie : r.statuses.isEmpty = false := by
      cases hs : r.statuses with
      | nil => exact absurd hs hne
      | cons a l => rfl
    refine ⟨"No HEAD commit found",
      ⟨r.statuses, r.workTree, r.workTree, r.headTarget, r.branchName,
       r.commits, r.remotes, r.remoteRefs, r.nextId⟩, ?_, ?_, rfl, hh⟩
    · simp [sync_execute, hie, hh]
    · simp [sync_execute, hie, hh]

/-- C3 (witness): a repository with one working-tree-modified file and a
valid HEAD commit, and an unborn repository with one untracked file. -/
def repoDirty : GitRepo :=
  ⟨[STATUS_WT_MODIFIED], 0, 7, Option.some 5, Option.some "main",
   [Commit.mk 5 [] "init" 0], [], [], 6⟩

/-- C3/C6 (witness): a repository whose HEAD is unborn. -/
def repoUnborn : GitRepo :=
  ⟨[STATUS_WT_NEW], 0, 7, Option.none, Option.none, [], [], [], 0⟩

theorem c3_commit_parent_message_witness :
    (repoDirty.statuses ≠ [] ∧
     repoDirty.headTarget = Option.some 5 ∧
     (repoDirty.commits.map Commit.cid).contains 5 = true ∧
     ∃ r₂ : GitRepo,
       (sync_execute (Option.some repoDirty) false).1 = Option.some r₂ ∧
       r₂.commits =
         Commit.mk repoDirty.nextId [5] "Sync dotfiles" repoDirty.workTree ::
           repoDirty.commits ∧
       r₂.headTarget = Option.some repoDirty.nextId) ∧
    (repoUnborn.statuses ≠ [] ∧
     repoUnborn.headTarget = Option.none ∧
     ∃ (e : String) (r₂ : GitRepo),
       (sync_execute (Option.some repoUnborn) false).2 = Except.error e ∧
       (sync_execute (Option.some repoUnborn) false).1 = Option.some r₂ ∧
       r₂.commits = repoUnborn.commits ∧ r₂.headTarget = Option.none) :=
  ⟨⟨by decide, rfl, rfl,
    c3_commit_parent_message.1 repoDirty false 5 (by decide) rfl rfl⟩,
   ⟨by decide, rfl,
    c3_commit_parent_message.2 repoUnborn false (by decide) rfl⟩⟩

/-- C6: on a repository with pending changes, a valid HEAD commit and no
remote named `origin`, sync with `push = true` fails with the
remote-not-found error, and at that point the commit created earlier in the
same call is already recorded: the commit store has grown by exactly that
commit, HEAD points to it, and no other refs changed — the remote refs, the
branch name and the remote list are exactly as before the call
(commit-then-push, not atomic across the two steps). -/
theorem c6_push_without_origin (r : GitRepo) (h : Nat)
    (hne : r.statuses ≠ []) (hh : r.headTarget = Option.some h)
    (hmem : (r.commits.map Commit.cid).contains h = true)
    (hno : r.remotes.contains "origin" = false) :
    ∃ r₂ : GitRepo,
      sync_execute (Option.some r) true =
        (Option.some r₂, Except.error "Remote origin not found") ∧
      r₂.commits = Commit.mk r.nextId [h] "Sync dotfiles" r.workTree :: r.commits ∧
      r₂.headTarget = Option.some r.nextId ∧
      r₂.remoteRefs = r.remoteRefs ∧
      r₂.branchName = r.branchName ∧
      r₂.remotes = r.remotes := by
  have hie : r.statuses.isEmpty = false := by
    cases hs : r.statuses with
    | nil => exact absurd hs hne
    | cons a l => rfl
  have hmem2 : ∃ a ∈ r.commits, a.cid = h := by simpa using hmem
  have hno2 : ¬ "origin" ∈ r.remotes := by simpa using hno
  refine ⟨⟨r.statuses, r.workTree, r.workTree, Option.some r.nextId,
    r.branchName,
    Commit.mk r.nextId [h] "Sync dotfiles" r.workTree :: r.commits,
    r.remotes, r.remoteRefs, r.nextId + 1⟩, ?_, rfl, rfl, rfl, rfl, rfl⟩
  simp [sync_execute, hie, hh, hmem2, hno2]

theorem c6_push_without_origin_witness :
    repoDirty.statuses ≠ [] ∧
    repoDirty.headTarget = Option.some 5 ∧
    (repoDirty.commits.map Commit.cid).contains 5 = true ∧
    repoDirty.remotes.contains "origin" = false ∧
    ∃ r₂ : GitRepo,
      sync_execute (Option.some repoDirty) true =
        (Option.some r₂, Except.error "Remote origin not found") ∧
      r₂.commits =
        Commit.mk repoDirty.nextId [5] "Sync dotfiles" repoDirty.workTree ::
          repoDirty.commits ∧
      r₂.headTarget = Option.some repoDirty.nextId ∧
      r₂.remoteRefs = repoDirty.remoteRefs ∧
      r₂.branchName = repoDirty.branchName ∧
      r₂.remotes = repoDirty.remotes :=
  ⟨by decide, rfl, rfl, by decide,
   c6_push_without_origin repoDirty 5 (by decide) rfl rfl (by decide)⟩

/-! ## Status report (src/commands/status.rs)

The vault is the list of its top-level entries in filesystem enumeration
order; the repository collaborator is an optional single-path status query
that may fail (`repo.status_file(rel_path)`), whose failure `.ok()` converts
to `None`. Paths are component lists relative to the vault root. -/

/-- Embedding of `path.is_dir()` on a vault entry. -/
def isDirContent : Content → Bool
  | Content.file _ => false
  | Content.dir _ => true

/-- Embedding of `file_name.starts_with('.')`: the hidden-entry test — whether the first
character of the name is `.`. -/
def startsWithDot (name : String) : Bool :=
  match name.data with
  | [] => false
  | ch :: _ => ch = '.'

/-- The configuration-collection pass of `status::execute` (lines 34-47):
keep the entries that are directories whose name does not start with `.`. -/
def collectConfs (vault : List (String × Content)) : List (String × Content) :=
  vault.filter (fun e => isDirContent e.2 && !(startsWithDot e.1))

/-- Embedding of `confs.sort_by(|a, b| a.0.cmp(&b.0))` (line 54): sort the collected
configurations by name, ascending. Rust's byte-wise comparison of UTF-8
strings coincides with the code-point order used here. -/
def sortConfs (l : List (String × Content)) : List (String × Content) :=
  List.insertionSort (fun a b => a.1 ≤ b.1) l

instance confLeDecidable :
    DecidableRel (fun (a b : String × Content) => a.1 ≤ b.1) :=
  fun a b => inferInstanceAs (Decidable (a.1 ≤ b.1))

instance confLeTotal : IsTotal (String × Content) (fun a b => a.1 ≤ b.1) :=
  ⟨fun a b => le_total a.1 b.1⟩

instance confLeTrans : IsTrans (String × Content) (fun a b => a.1 ≤ b.1) :=
  ⟨fun _ _ _ h1 h2 => le_trans h1 h2⟩

mutual

/-- The `WalkDir::new(&conf_path)` traversal (lines 59-74): depth-first,
yielding each node's path (relative to the vault root) with the root entry
first. -/
def walkTree (p : List String) (c : Content) : List (List String) :=
  match c with
  | Content.file _ => [p]
  | Content.dir es => p :: walkChildren p es

/-- The children part of the walk, in directory enumeration order. -/
def walkChildren (p : List String) : List (String × Content) → List (List String)
  | [] => []
  | e :: rest => walkTree (p ++ [e.1]) e.2 ++ walkChildren p rest

end

/-- The per-file status lookup of the walk's `filter_map` (lines 66-69):
`None` when no repository handle is present, otherwise
`repo.status_file(rel_path).ok()` — a failing query is converted to `None`,
never an error. -/
def queryStatus (repo : Option (List String → Except String Status))
    (p : List String) : Option Status :=
  match repo with
  | Option.none => Option.none
  | Option.some q => (q p).toOption

/-- The file list built for one configuration (lines 59-74): every walked
node paired with its queried status, with `.skip(1)` dropping the
configuration directory's own root entry. -/
def fileStatuses (repo : Option (List String → Except String Status))
    (confName : String) (c : Content) : List (List String × Option Status) :=
  ((walkTree [confName] c).map (fun p => (p, queryStatus repo p))).drop 1

/-- What is printed for one configuration: the `(empty)` sentinel when the
file list is empty (line 77), otherwise the files. -/
inductive ConfigReport where
  | empty
  | files (fs : List (List String × Option Status))

/-- The whole report: the `No configurations found` marker (line 50), or the
per-configuration sequence. -/
inductive Report where
  | noConfigurations
  | configs (cs : List (String × ConfigReport))

/-- Report for one configuration (lines 76-84). -/
def reportConfig (repo : Option (List String → Except String Status))
    (name : String) (c : Content) : ConfigReport :=
  let fs := fileStatuses repo name c
  if fs.isEmpty then ConfigReport.empty else ConfigReport.files fs

/-- Embedding of `status::execute` (src/commands/status.rs lines 34-89):
collect the non-hidden directory entries of the vault, return the
no-configurations marker if there are none, otherwise sort them by name and
walk each one in that order. -/
def statusReport (repo : Option (List String → Except String Status))
    (vault : List (String × Content)) : Report :=
  let confs := collectConfs vault
  if confs.isEmpty then Report.noConfigurations
  else
    Report.configs
      ((sortConfs confs).map (fun e => (e.1, reportConfig repo e.1 e.2)))

/-- The configuration names of a report, in report order. -/
def reportConfNames : Report → List String
  | Report.noConfigurations => []
  | Report.configs cs => cs.map Prod.fst

/-- Helper: two sorted association lists that are permutations of each other
and have duplicate-free names are equal. -/
theorem sorted_nodup_assoc_eq :
    ∀ (l₁ l₂ : List (String × Content)), l₁.Perm l₂ →
      l₁.Pairwise (fun a b => a.1 ≤ b.1) →
      l₂.Pairwise (fun a b => a.1 ≤ b.1) →
      (l₁.map Prod.fst).Nodup → l₁ = l₂ := by
  intro l₁
  induction l₁ with
  | nil =>
    intro l₂ hp _ _ _
    exact (hp.symm.eq_nil).symm
  | cons a t ih =>
    intro l₂ hp hs1 hs2 hnd
    cases l₂ with
    | nil => exact absurd hp.eq_nil (List.cons_ne_nil a t)
    | cons b u =>
      have hab : a = b := by
        by_cases heq : a = b
        · exact heq
        · exfalso
          have hamem : a ∈ b :: u := hp.subset (List.mem_cons_self a t)
          have hbmem : b ∈ a :: t := hp.symm.subset (List.mem_cons_self b u)
          have ha_u : a ∈ u := by
            cases List.mem_cons.mp hamem with
            | inl h => exact absurd h heq
            | inr h => exact h
          have hb_t : b ∈ t := by
            cases List.mem_cons.mp hbmem with
            | inl h => exact absurd h.symm heq
            | inr h => exact h
          have h1 : a.1 ≤ b.1 := (List.pairwise_cons.mp hs1).1 b hb_t
          have h2 : b.1 ≤ a.1 := (List.pairwise_cons.mp hs2).1 a ha_u
          have hfst : a.1 = b.1 := le_antisymm h1 h2
          have hmem : a.1 ∈ t.map Prod.fst := by
            rw [hfst]
            exact List.mem_map_of_mem Prod.fst hb_t
          have hndc : a.1 ∉ t.map Prod.fst := by
            have := hnd
            simp only [List.map_cons, List.nodup_cons] at this
            exact this.1
          exact hndc hmem
      subst hab
      have htail : t = u := by
        refine ih u hp.cons_inv (List.pairwise_cons.mp hs1).2
          (List.pairwise_cons.mp hs2).2 ?_
        have := hnd
        simp only [List.map_cons, List.nodup_cons] at this
        exact this.2
      rw [htail]

/-- C7: the sequence of configurations in the status report is exactly the
immediate non-hidden subdirectories of the vault root, ordered
lexicographically ascending by name, independently of filesystem enumeration
order: (1) two vault enumerations that are permutations of each other (with
duplicate-free configuration names, as directory entries are) produce the
same report; (2) the report's configuration names are sorted ascending;
(3) they are exactly the collected non-hidden subdirectory names. -/
theorem c7_sorted_configurations :
    (∀ (repo : Option (List String → Except String Status))
       (v₁ v₂ : List (String × Content)), v₁.Perm v₂ →
       ((collectConfs v₁).map Prod.fst).Nodup →
       statusReport repo v₁ = statusReport repo v₂) ∧
    (∀ (repo : Option (List String → Except String Status))
       (v : List (String × Content)),
       (reportConfNames (statusReport repo v)).Sorted (· ≤ ·)) ∧
    (∀ (repo : Option (List String → Except String Status))
       (v : List (String × Content)),
       (reportConfNames (statusReport repo v)).Perm
         ((collectConfs v).map Prod.fst)) := by
  refine ⟨?_, ?_, ?_⟩
  · intro repo v₁ v₂ hperm hnd
    have hcp : (collectConfs v₁).Perm (collectConfs v₂) := hperm.filter _
    have heq : sortConfs (collectConfs v₁) = sortConfs (collectConfs v₂) := by
      refine sorted_nodup_assoc_eq _ _
        ((List.perm_insertionSort _ _).trans
          (hcp.trans (List.perm_insertionSort _ _).symm))
        (List.sorted_insertionSort _ _) (List.sorted_insertionSort _ _) ?_
      exact (((List.perm_insertionSort _ _).map Prod.fst).nodup_iff).mpr hnd
    cases hc1 : collectConfs v₁ with
    | nil =>
      have hc2 : collectConfs v₂ = [] := by
        have h := hcp
        rw [hc1] at h
        exact h.symm.eq_nil
      simp [statusReport, hc1, hc2]
    | cons a t =>
      have he1 : (collectConfs v₁).isEmpty = false := by rw [hc1]; rfl
      have he2 : (collectConfs v₂).isEmpty = false := by
        cases hc2 : collectConfs v₂ with
        | nil =>
          rw [hc1, hc2] at hcp
          exact absurd hcp.eq_nil (List.cons_ne_nil a t)
        | cons b u => rfl
      simp only [statusReport, he1, he2, Bool.false_eq_true, if_false, heq]
  · intro repo v
    cases he : (collectConfs v).isEmpty with
    | true => simp [statusReport, he, reportConfNames, List.Sorted]
    | false =>
      simp only [statusReport, he, Bool.false_eq_true, if_false,
        reportConfNames, List.map_map]
      have hs : (sortConfs (collectConfs v)).Pairwise
          (fun a b => a.1 ≤ b.1) := List.sorted_insertionSort _ _
      exact hs.map _ (fun a b h => h)
  · intro repo v
    cases he : (collectConfs v).isEmpty with
    | true =>
      have : collectConfs v = [] := by
        cases hc : collectConfs v with
        | nil => rfl
        | cons a t => rw [hc] at he; exact absurd he (by simp)
      simp [statusReport, he, reportConfNames, this]
    | false =>
      simp only [statusReport, he, Bool.false_eq_true, if_false,
        reportConfNames, List.map_map]
      have hperm : (sortConfs (collectConfs v)).Perm (collectConfs v) :=
        List.perm_insertionSort _ _
      have := hperm.map Prod.fst
      simpa using this

/-- Helper: every path yielded by the walk at root `p` is at least as long
as `p`, and every path yielded for the children of `p` is strictly longer —
so the root path never reappears below itself. -/
theorem walk_path_lengths :
    (∀ (p : List String) (c : Content) (q : List String),
      q ∈ walkTree p c → p.length ≤ q.length) ∧
    (∀ (p : List String) (es : List (String × Content)) (q : List String),
      q ∈ walkChildren p es → p.length < q.length) := by
  have h := walkTree.mutual_induct
    (fun p c => ∀ q, q ∈ walkTree p c → p.length ≤ q.length)
    (fun p es => ∀ q, q ∈ walkChildren p es → p.length < q.length)
    ?_ ?_ ?_ ?_
  · exact ⟨fun p c q => h.1 p c q, fun p es q => h.2 p es q⟩
  · intro p d q hq
    simp only [walkTree, List.mem_singleton] at hq
    rw [hq]
  · intro p es ih q hq
    simp only [walkTree, List.mem_cons] at hq
    cases hq with
    | inl h0 => rw [h0]
    | inr h0 => exact le_of_lt (ih q h0)
  · intro p q hq
    simp [walkChildren] at hq
  · intro p e rest ih1 ih2 q hq
    simp only [walkChildren, List.mem_append] at hq
    cases hq with
    | inl h0 =>
      have := ih1 q h0
      simp only [List.length_append, List.length_singleton] at this
      omega
    | inr h0 => exact ih2 q h0

/-- C8: (1) the configuration directory's own root entry is excluded from
the reported file list: for a configuration directory the listed paths are
exactly those of its proper descendants, and the root path is not among
them; (2) on a vault with zero configurations the report is the
no-configurations marker and nothing else; (3) a configuration whose file
list is empty after dropping the root entry is reported as the distinguished
`(empty)` sentinel rather than as an empty file list. -/
theorem c8_root_excluded_sentinels :
    (∀ (repo : Option (List String → Except String Status))
       (name : String) (es : List (String × Content)),
       (fileStatuses repo name (Content.dir es)).map Prod.fst =
         walkChildren [name] es ∧
       [name] ∉ (fileStatuses repo name (Content.dir es)).map Prod.fst) ∧
    (∀ (repo : Option (List String → Except String Status))
       (v : List (String × Content)), collectConfs v = [] →
       statusReport repo v = Report.noConfigurations) ∧
    (∀ (repo : Option (List String → Except String Status))
       (name : String) (c : Content),
       (fileStatuses repo name c).isEmpty = true →
       reportConfig repo name c = ConfigReport.empty) := by
  refine ⟨?_, ?_, ?_⟩
  · intro repo name es
    have hmap : (fileStatuses repo name (Content.dir es)).map Prod.fst =
        walkChildren [name] es := by
      simp only [fileStatuses, ← List.map_drop, List.map_map]
      have hcomp : (Prod.fst ∘ fun p => (p, queryStatus repo p)) =
          fun p : List String => p := rfl
      rw [hcomp]
      simp [walkTree]
    refine ⟨hmap, ?_⟩
    rw [hmap]
    intro hmem
    have := walk_path_lengths.2 [name] es [name] hmem
    simp at this
  · intro repo v h
    simp [statusReport, h]
  · intro repo name c h
    simp [reportConfig, h]

/-- C8 (witness): a vault with no configurations (only a hidden directory
and a plain file), and a configuration with no files; root exclusion
evaluated on a one-file configuration. -/
def vaultHidden : List (String × Content) :=
  [(".git", Content.dir []), ("notes", Content.file [7])]

theorem c8_root_excluded_sentinels_witness :
    ((fileStatuses Option.none "cfg" (Content.dir [("rc", Content.file [1])])).map
        Prod.fst = walkChildren ["cfg"] [("rc", Content.file [1])] ∧
     ["cfg"] ∉ (fileStatuses Option.none "cfg"
        (Content.dir [("rc", Content.file [1])])).map Prod.fst) ∧
    (collectConfs vaultHidden = [] ∧
     statusReport Option.none vaultHidden = Report.noConfigurations) ∧
    ((fileStatuses Option.none "cfg" (Content.dir [])).isEmpty = true ∧
     reportConfig Option.none "cfg" (Content.dir []) = ConfigReport.empty) := by
  have hcc : collectConfs vaultHidden = [] := rfl
  exact
    ⟨c8_root_excluded_sentinels.1 Option.none "cfg" [("rc", Content.file [1])],
     ⟨hcc, c8_root_excluded_sentinels.2.1 Option.none vaultHidden hcc⟩,
     ⟨rfl, c8_root_excluded_sentinels.2.2 Option.none "cfg" (Content.dir []) rfl⟩⟩

/-- C7 (witness): the same two configurations enumerated in both orders give
the same report, sorted ascending by name. -/
def confWit : Content := Content.dir [("rc", Content.file [1])]

/-- C7 (witness): vault enumerated alphabetically. -/
def vaultFw : List (String × Content) := [("alpha", confWit), ("beta", Content.dir [])]

/-- C7 (witness): the same vault enumerated in reverse order. -/
def vaultBw : List (String × Content) := [("beta", Content.dir []), ("alpha", confWit)]

theorem c7_sorted_configurations_witness :
    vaultFw.Perm vaultBw ∧
    ((collectConfs vaultFw).map Prod.fst).Nodup ∧
    statusReport Option.none vaultFw = statusReport Option.none vaultBw ∧
    (reportConfNames (statusReport Option.none vaultFw)).Sorted (· ≤ ·) ∧
    (reportConfNames (statusReport Option.none vaultFw)).Perm
      ((collectConfs vaultFw).map Prod.fst) :=
  have hp : vaultFw.Perm vaultBw :=
    List.Perm.swap ("beta", Content.dir []) ("alpha", confWit) []
  have hnd : ((collectConfs vaultFw).map Prod.fst).Nodup := by decide
  ⟨hp, hnd,
   c7_sorted_configurations.1 Option.none vaultFw vaultBw hp hnd,
   c7_sorted_configurations.2.1 Option.none vaultFw,
   c7_sorted_configurations.2.2 Option.none vaultFw⟩

/-- C10: when the repository's single-path status query fails on a walked
entry, the report does not fail and the entry is not dropped: the listed
paths are the same as with no repository attached, and the failed query's
status is recorded as `None` — rendered as the absent tag
(`StatusKind.absent`), exactly as if no repository were attached. -/
theorem c10_query_error_listed_absent
    (q : List String → Except String Status) (name : String) (c : Content) :
    ((fileStatuses (Option.some q) name c).map Prod.fst =
      (fileStatuses Option.none name c).map Prod.fst) ∧
    (∀ p s, (p, s) ∈ fileStatuses (Option.some q) name c →
      (∃ err, q p = Except.error err) →
      s = Option.none ∧ statusKind s = StatusKind.absent) := by
  constructor
  · simp only [fileStatuses, List.map_drop, List.map_map]
    have h1 : (Prod.fst ∘ fun p => (p, queryStatus (Option.some q) p)) =
        fun p : List String => p := rfl
    have h2 : (Prod.fst ∘ fun p => (p, queryStatus Option.none p)) =
        fun p : List String => p := rfl
    rw [h1, h2]
  · intro p s hmem hq
    have hmem2 : (p, s) ∈
        (walkTree [name] c).map (fun x => (x, queryStatus (Option.some q) x)) :=
      List.mem_of_mem_drop hmem
    obtain ⟨x, hx, heq⟩ := List.mem_map.mp hmem2
    have hxp : x = p := congrArg Prod.fst heq
    subst hxp
    have hxs : queryStatus (Option.some q) x = s := congrArg Prod.snd heq
    obtain ⟨err, herr⟩ := hq
    have hs : s = (q x).toOption := hxs.symm
    rw [herr] at hs
    subst hs
    exact ⟨rfl, rfl⟩

/-- C10 (witness): a query that fails on every path; the configuration's one
file is still listed, with the absent status. -/
def qFail : List String → Except String Status :=
  fun _ => Except.error "the path is a directory"

theorem c10_query_error_listed_absent_witness :
    ((fileStatuses (Option.some qFail) "cfg" confWit).map Prod.fst =
      (fileStatuses Option.none "cfg" confWit).map Prod.fst) ∧
    (["cfg", "rc"], (Option.none : Option Status)) ∈
      fileStatuses (Option.some qFail) "cfg" confWit ∧
    (∃ err, qFail ["cfg", "rc"] = Except.error err) ∧
    ((Option.none : Option Status) = Option.none ∧
     statusKind Option.none = StatusKind.absent) :=
  have hmem : (["cfg", "rc"], (Option.none : Option Status)) ∈
      fileStatuses (Option.some qFail) "cfg" confWit := by decide
  have hex : ∃ err, qFail ["cfg", "rc"] = Except.error err :=
    ⟨"the path is a directory", rfl⟩
  ⟨(c10_query_error_listed_absent qFail "cfg" confWit).1, hmem, hex,
   (c10_query_error_listed_absent qFail "cfg" confWit).2
     ["cfg", "rc"] Option.none hmem hex⟩
